import Mathlib

/-!
Verification of the FSRS scheduling core of knolhash
(`internal/fsrs/fsrs.go`), shallowly embedded in Lean 4.

Modelling conventions:
* Go `float64` values are modelled as real numbers (`ℝ`); `math.Exp` is
  `Real.exp`, `math.Pow` is `Real.rpow`, `math.Max`/`math.Min` are
  `max`/`min`.  `NaN` is not representable in this model.
* Go `time.Time` instants are modelled as integer nanosecond counts
  (`ℤ`); the ambient clock `time.Now()` is passed explicitly as a
  `now : ℤ` argument.  Go `time.Duration` is an `int64` nanosecond count:
  its arithmetic wraps in two's complement (`int64wrap`), and the
  `float64 → time.Duration` conversion is truncation toward zero when the
  truncated value is representable and implementation-defined otherwise
  (modelled as `none`).
* Go slice indexing `p.W[i]` panics when `i` is out of range; functions
  whose execution can reach such an access return `Option` and yield
  `none` exactly when the Go code would panic.
-/

noncomputable section

namespace Knolhash

/-- The Go source represents ratings as a plain machine integer
(`type Rating int`), so the model uses `ℤ` (any integer can be passed). -/
abbrev Rating := Int

/-- Rating constant `Again = 1`. -/
def Again : Rating := 1

/-- Rating constant `Hard = 2`. -/
def Hard : Rating := 2

/-- Rating constant `Good = 3`. -/
def Good : Rating := 3

/-- Rating constant `Easy = 4`. -/
def Easy : Rating := 4

/-- Model of `Params` from the source: the weight slice `W` and the
`DesiredRetention` target. -/
structure Params where
  W : List ℝ
  DesiredRetention : ℝ

/-- Model of `DefaultParams()` from the source, with the same eleven
weights. -/
def DefaultParams : Params :=
  { W := [0.4, 0.6, 2.4, 5.8, 4.93, 0.94, 0.86, 0.01, 1.49, 0.14, 0.94]
    DesiredRetention := 0.9 }

/-- Model of `CardState` from the source (`LastReview time.Time` is an
integer nanosecond timestamp in the model). -/
structure CardState where
  Stability : ℝ
  Difficulty : ℝ
  LastReview : ℤ

/-- Go slice read `w[i]` with an `int` index: `none` models the
index-out-of-range panic. -/
def sliceIdx (w : List ℝ) (i : ℤ) : Option ℝ :=
  if 0 ≤ i then w[i.toNat]? else none

/-- Model of `calculateNewStability` from the source:
`hardPenalty` is `p.W[10]` for `Hard`, `1.3` for `Easy`, else `1.0`;
`growthFactor = exp(W[8]) * (11 - d) * s^(-W[9])`;
`retentionFactor = exp(W[10]*(1-DesiredRetention)) - 1`;
result `s * (1 + growthFactor*retentionFactor*hardPenalty)`. -/
def calculateNewStability (p : Params) (s d : ℝ) (r : Rating) : Option ℝ :=
  (if r = Hard then sliceIdx p.W 10
   else if r = Easy then some 1.3 else some 1).bind fun hardPenalty =>
  (sliceIdx p.W 8).bind fun w8 =>
  (sliceIdx p.W 9).bind fun w9 =>
  (sliceIdx p.W 10).bind fun w10 =>
  let growthFactor := Real.exp w8 * (11 - d) * s ^ (-w9)
  let retentionFactor := Real.exp (w10 * (1 - p.DesiredRetention)) - 1
  some (s * (1 + growthFactor * retentionFactor * hardPenalty))

/-- Model of `(p *Params) NextState(currentState, rating)` from the
source; `now` stands for the `time.Now()` call made inside the function. -/
def NextState (p : Params) (currentState : CardState) (rating : Rating)
    (now : ℤ) : Option CardState :=
  if currentState.Stability = 0 then
    -- First review for a new card: stability is one of the first 4 weights
    (sliceIdx p.W (rating - 1)).bind fun newStability =>
    (sliceIdx p.W 4).bind fun w4 =>
    (sliceIdx p.W 6).bind fun w6 =>
    let newDifficulty := max 1 (min 10 (w4 - w6 * ((rating : ℝ) - 3)))
    some ⟨newStability, newDifficulty, now⟩
  else
    -- Subsequent reviews
    (sliceIdx p.W 6).bind fun w6 =>
    let adjustment : ℝ := (rating : ℝ) - 3
    let newDifficulty :=
      max 1 (min 10 (currentState.Difficulty - w6 * adjustment))
    if rating = Again then
      (sliceIdx p.W 7).bind fun w7 =>
      some ⟨max 0.1 (currentState.Stability * w7), newDifficulty, now⟩
    else
      (calculateNewStability p currentState.Stability newDifficulty
        rating).bind fun newStability =>
      some ⟨newStability, newDifficulty, now⟩

/-- Nanoseconds in `time.Hour`. -/
def nsPerHour : ℤ := 3600000000000

/-- Largest `int64` value, `2^63 - 1`. -/
def int64Max : ℤ := 9223372036854775807

/-- Smallest `int64` value, `-2^63`. -/
def int64Min : ℤ := -9223372036854775808

/-- Reduction of an integer into `int64` by two's-complement wraparound:
Go defines signed-integer overflow in `+`, `-`, `*` to wrap this way. -/
def int64wrap (n : ℤ) : ℤ :=
  (n + 9223372036854775808) % 18446744073709551616 - 9223372036854775808

/-- Go conversion of a `float64` to the `int64`-based type `time.Duration`
(`time.Duration(hours)`): truncation toward zero when the truncated value
is representable in `int64`; for out-of-range values the Go spec makes the
result implementation-defined, modelled as `none`. -/
def durationOfFloat (x : ℝ) : Option ℤ :=
  let t : ℤ := if 0 ≤ x then ⌊x⌋ else ⌈x⌉
  if int64Min ≤ t ∧ t ≤ int64Max then some t else none

/-- Model of `NextDueDate(newStability float64)` from the source:
`hours := newStability * 24; time.Now().Add(time.Duration(hours) * time.Hour)`.
The `float64 → time.Duration` conversion truncates to a whole number, and
the subsequent `* time.Hour` is `int64` multiplication, which wraps: for
`trunc(hours) ≥ 2562048` (stability ≥ 106752 days) the added duration
overflows `int64` and the due date lands before `now`.  (`time.Time`
itself has a far larger range — `int64` seconds — so the final `Add` is
modelled exactly.) -/
def NextDueDate (newStability : ℝ) (now : ℤ) : Option ℤ :=
  let hours := newStability * 24
  (durationOfFloat hours).map fun d => now + int64wrap (d * nsPerHour)

/-- The spec's description of `NextDueDate` ("adding `stability * 24h` to
`now`", "no rounding", fractional days kept exactly), as an exact
real-valued timestamp, for comparison with the implementation. -/
def specNextDueDate (stability : ℝ) (now : ℤ) : ℝ :=
  (now : ℝ) + stability * 24 * (nsPerHour : ℝ)

/-- Repeated reviews all rated `Again` (the spec's §8 "repeated `Again`
ratings" scenario); the clock argument is irrelevant to the numeric
fields and fixed at 0. -/
def iterateAgain (p : Params) (c : CardState) : ℕ → Option CardState
  | 0 => some c
  | n + 1 => (iterateAgain p c n).bind fun st => NextState p st Again 0

/-- The `growthFactor` local of `calculateNewStability` evaluated at the
default weights `W[8] = 1.49`, `W[9] = 0.14`. -/
def growthFactor (s d : ℝ) : ℝ :=
  Real.exp 1.49 * (11 - d) * s ^ (-(0.14 : ℝ))

/-- The `retentionFactor` local of `calculateNewStability` evaluated at the
default weight `W[10] = 0.94` and `DesiredRetention = 0.9`. -/
def retentionFactor : ℝ :=
  Real.exp (0.94 * (1 - 0.9)) - 1

/-- The `hardPenalty` local of `calculateNewStability` evaluated at the
default weight `W[10] = 0.94`. -/
def hardPenalty (r : Rating) : ℝ :=
  if r = Hard then 0.94 else if r = Easy then 1.3 else 1

/-! Evaluation lemmas for the default weight slice. -/

lemma DefaultParams_DR : DefaultParams.DesiredRetention = 0.9 := rfl

lemma sliceIdx_W0 : sliceIdx DefaultParams.W 0 = some 0.4 := rfl

lemma sliceIdx_W1 : sliceIdx DefaultParams.W 1 = some 0.6 := rfl

lemma sliceIdx_W2 : sliceIdx DefaultParams.W 2 = some 2.4 := rfl

lemma sliceIdx_W3 : sliceIdx DefaultParams.W 3 = some 5.8 := rfl

lemma sliceIdx_W4 : sliceIdx DefaultParams.W 4 = some 4.93 := rfl

lemma sliceIdx_W6 : sliceIdx DefaultParams.W 6 = some 0.86 := rfl

lemma sliceIdx_W7 : sliceIdx DefaultParams.W 7 = some 0.01 := rfl

lemma sliceIdx_W8 : sliceIdx DefaultParams.W 8 = some 1.49 := rfl

lemma sliceIdx_W9 : sliceIdx DefaultParams.W 9 = some 0.14 := rfl

lemma sliceIdx_W10 : sliceIdx DefaultParams.W 10 = some 0.94 := rfl

/-! Normal forms of `NextState` under the default parameters. -/

lemma nextState_new_again (d : ℝ) (t now : ℤ) :
    NextState DefaultParams ⟨0, d, t⟩ Again now = some ⟨0.4, 6.65, now⟩ := by
  unfold NextState
  rw [if_pos (show (CardState.mk 0 d t).Stability = 0 from rfl)]
  norm_num [Again, sliceIdx_W0, sliceIdx_W4, sliceIdx_W6, Option.bind, max_def, min_def]

lemma nextState_new_hard (d : ℝ) (t now : ℤ) :
    NextState DefaultParams ⟨0, d, t⟩ Hard now = some ⟨0.6, 5.79, now⟩ := by
  unfold NextState
  rw [if_pos (show (CardState.mk 0 d t).Stability = 0 from rfl)]
  norm_num [Hard, sliceIdx_W1, sliceIdx_W4, sliceIdx_W6, Option.bind, max_def, min_def]

lemma nextState_new_good (d : ℝ) (t now : ℤ) :
    NextState DefaultParams ⟨0, d, t⟩ Good now = some ⟨2.4, 4.93, now⟩ := by
  unfold NextState
  rw [if_pos (show (CardState.mk 0 d t).Stability = 0 from rfl)]
  norm_num [Good, sliceIdx_W2, sliceIdx_W4, sliceIdx_W6, Option.bind, max_def, min_def]

lemma nextState_new_easy (d : ℝ) (t now : ℤ) :
    NextState DefaultParams ⟨0, d, t⟩ Easy now = some ⟨5.8, 4.07, now⟩ := by
  unfold NextState
  rw [if_pos (show (CardState.mk 0 d t).Stability = 0 from rfl)]
  norm_num [Easy, sliceIdx_W3, sliceIdx_W4, sliceIdx_W6, Option.bind, max_def, min_def]

lemma nextState_again_eq (c : CardState) (now : ℤ) (h : c.Stability ≠ 0) :
    NextState DefaultParams c Again now =
      some ⟨max 0.1 (c.Stability * 0.01),
            max 1 (min 10 (c.Difficulty + 1.72)), now⟩ := by
  unfold NextState
  rw [if_neg h]
  norm_num [Again, sliceIdx_W6, sliceIdx_W7, Option.bind]

lemma nextState_good_eq (c : CardState) (now : ℤ) (h : c.Stability ≠ 0) :
    NextState DefaultParams c Good now =
      some ⟨c.Stability *
              (1 + growthFactor c.Stability (max 1 (min 10 c.Difficulty)) *
                retentionFactor * 1),
            max 1 (min 10 c.Difficulty), now⟩ := by
  unfold NextState calculateNewStability
  rw [if_neg h]
  norm_num [Good, Hard, Easy, Again, DefaultParams_DR, sliceIdx_W6, sliceIdx_W8, sliceIdx_W9,
    sliceIdx_W10, Option.bind, growthFactor, retentionFactor]

lemma nextState_hard_eq (c : CardState) (now : ℤ) (h : c.Stability ≠ 0) :
    NextState DefaultParams c Hard now =
      some ⟨c.Stability *
              (1 + growthFactor c.Stability (max 1 (min 10 (c.Difficulty + 0.86))) *
                retentionFactor * 0.94),
            max 1 (min 10 (c.Difficulty + 0.86)), now⟩ := by
  unfold NextState calculateNewStability
  rw [if_neg h]
  norm_num [Good, Hard, Easy, Again, DefaultParams_DR, sliceIdx_W6, sliceIdx_W8, sliceIdx_W9,
    sliceIdx_W10, Option.bind, growthFactor, retentionFactor]

lemma nextState_easy_eq (c : CardState) (now : ℤ) (h : c.Stability ≠ 0) :
    NextState DefaultParams c Easy now =
      some ⟨c.Stability *
              (1 + growthFactor c.Stability (max 1 (min 10 (c.Difficulty - 0.86))) *
                retentionFactor * 1.3),
            max 1 (min 10 (c.Difficulty - 0.86)), now⟩ := by
  unfold NextState calculateNewStability
  rw [if_neg h]
  norm_num [Good, Hard, Easy, Again, DefaultParams_DR, sliceIdx_W6, sliceIdx_W8, sliceIdx_W9,
    sliceIdx_W10, Option.bind, growthFactor, retentionFactor]

/-! Arithmetic helper lemmas. -/

lemma clamp_le_ten (x : ℝ) : max 1 (min 10 x) ≤ 10 :=
  max_le (by norm_num) (min_le_left _ _)

lemma one_le_clamp (x : ℝ) : 1 ≤ max 1 (min 10 x) := le_max_left _ _

lemma retentionFactor_pos : 0 < retentionFactor := by
  unfold retentionFactor
  have h := Real.exp_lt_exp.mpr (show (0 : ℝ) < 0.94 * (1 - 0.9) by norm_num)
  rw [Real.exp_zero] at h
  linarith

lemma growthFactor_pos (s d : ℝ) (hs : 0 < s) (hd : d ≤ 10) :
    0 < growthFactor s d := by
  unfold growthFactor
  exact mul_pos (mul_pos (Real.exp_pos _) (by linarith)) (Real.rpow_pos_of_pos hs _)

lemma succStability_gt (s nd hp : ℝ) (hs : 0 < s) (hnd : nd ≤ 10)
    (hhp : 0 < hp) :
    s < s * (1 + growthFactor s nd * retentionFactor * hp) := by
  have hG := growthFactor_pos s nd hs hnd
  have hR := retentionFactor_pos
  nlinarith [mul_pos (mul_pos hG hR) hhp]

/-! Iterated `Again` reviews. -/

lemma iterateAgain_invariant (c : CardState) (hc : 0 < c.Stability) :
    ∀ n : ℕ, ∃ st, iterateAgain DefaultParams c n = some st ∧
      0 < st.Stability ∧
      st.Stability ≤ max 0.1 ((0.01 : ℝ) ^ n * c.Stability) ∧
      (1 ≤ n → 0.1 ≤ st.Stability) := by
  intro n
  induction n with
  | zero =>
    refine ⟨c, rfl, hc, ?_, by intro h; exact absurd h (by norm_num)⟩
    rw [pow_zero, one_mul]
    exact le_max_right _ _
  | succ n ih =>
    obtain ⟨st, hit, hpos, hle, _⟩ := ih
    refine ⟨⟨max 0.1 (st.Stability * 0.01), max 1 (min 10 (st.Difficulty + 1.72)), 0⟩,
      ?_, ?_, ?_, fun _ => le_max_left _ _⟩
    · show iterateAgain DefaultParams c (n + 1) = _
      rw [iterateAgain, hit]
      exact nextState_again_eq st 0 (ne_of_gt hpos)
    · calc (0 : ℝ) < 0.1 := by norm_num
        _ ≤ _ := le_max_left _ _
    · show max (0.1 : ℝ) (st.Stability * 0.01) ≤ max 0.1 ((0.01 : ℝ) ^ (n + 1) * c.Stability)
      apply max_le (le_max_left _ _)
      rcases le_or_lt ((0.01 : ℝ) ^ n * c.Stability) 0.1 with h | h
      · have h2 : st.Stability ≤ 0.1 := le_trans hle (max_le le_rfl h)
        exact le_trans (by linarith) (le_max_left _ _)
      · have h2 : st.Stability ≤ (0.01 : ℝ) ^ n * c.Stability :=
          le_trans hle (max_le (le_of_lt h) le_rfl)
        refine le_trans ?_ (le_max_right _ _)
        calc st.Stability * 0.01 ≤ ((0.01 : ℝ) ^ n * c.Stability) * 0.01 := by linarith
          _ = (0.01 : ℝ) ^ (n + 1) * c.Stability := by ring

lemma iterateAgain_eventually (c : CardState) (hc : 0 < c.Stability) :
    ∃ N : ℕ, ∀ n : ℕ, N ≤ n →
      ∃ st, iterateAgain DefaultParams c n = some st ∧ st.Stability = 0.1 := by
  obtain ⟨N, hN⟩ := exists_pow_lt_of_lt_one
    (div_pos (show (0 : ℝ) < 0.1 by norm_num) hc) (show (0.01 : ℝ) < 1 by norm_num)
  have hbound : (0.01 : ℝ) ^ N * c.Stability < 0.1 := (lt_div_iff₀ hc).mp hN
  refine ⟨N + 1, fun n hn => ?_⟩
  obtain ⟨st, hit, hpos, hle, hlo⟩ := iterateAgain_invariant c hc n
  refine ⟨st, hit, le_antisymm ?_ (hlo (by omega))⟩
  have hpow : (0.01 : ℝ) ^ n ≤ (0.01 : ℝ) ^ N :=
    pow_le_pow_of_le_one (by norm_num) (by norm_num) (by omega)
  have h2 : (0.01 : ℝ) ^ n * c.Stability ≤ 0.1 := by nlinarith
  exact le_trans hle (max_le le_rfl h2)

/-! Claim theorems. -/

/-- Claim C1: for every reachable input (stability ≥ 0 and, once reviewed,
difficulty in [1,10]) and every rating in {Again, Hard, Good, Easy},
`NextState` under the default parameters returns a state whose stability is
strictly positive and whose difficulty is non-negative (in the real-number
model `NaN` is not representable, so the NaN part of the claim is expressed
by totality of the returned fields as real numbers). -/
theorem NextState_stability_positive (c : CardState) (r : Rating) (now : ℤ)
    (hs : 0 ≤ c.Stability)
    (hd : c.Stability ≠ 0 → 1 ≤ c.Difficulty ∧ c.Difficulty ≤ 10)
    (hr : r = Again ∨ r = Hard ∨ r = Good ∨ r = Easy) :
    ∃ st, NextState DefaultParams c r now = some st ∧
      0 < st.Stability ∧ 0 ≤ st.Difficulty := by
  obtain ⟨s, d, t⟩ := c
  by_cases h0 : s = 0
  · subst h0
    rcases hr with h | h | h | h <;> subst h
    · exact ⟨_, nextState_new_again d t now, by norm_num, by norm_num⟩
    · exact ⟨_, nextState_new_hard d t now, by norm_num, by norm_num⟩
    · exact ⟨_, nextState_new_good d t now, by norm_num, by norm_num⟩
    · exact ⟨_, nextState_new_easy d t now, by norm_num, by norm_num⟩
  · have hs2 : (0 : ℝ) < s := lt_of_le_of_ne hs (Ne.symm h0)
    rcases hr with h | h | h | h <;> subst h
    · refine ⟨_, nextState_again_eq ⟨s, d, t⟩ now h0, ?_, ?_⟩
      · show (0 : ℝ) < max 0.1 (s * 0.01)
        calc (0 : ℝ) < 0.1 := by norm_num
          _ ≤ _ := le_max_left _ _
      · exact le_trans (by norm_num) (one_le_clamp _)
    · exact ⟨_, nextState_hard_eq ⟨s, d, t⟩ now h0,
        lt_trans hs2 (succStability_gt s _ _ hs2 (clamp_le_ten _) (by norm_num)),
        le_trans (by norm_num) (one_le_clamp _)⟩
    · exact ⟨_, nextState_good_eq ⟨s, d, t⟩ now h0,
        lt_trans hs2 (succStability_gt s _ _ hs2 (clamp_le_ten _) (by norm_num)),
        le_trans (by norm_num) (one_le_clamp _)⟩
    · exact ⟨_, nextState_easy_eq ⟨s, d, t⟩ now h0,
        lt_trans hs2 (succStability_gt s _ _ hs2 (clamp_le_ten _) (by norm_num)),
        le_trans (by norm_num) (one_le_clamp _)⟩

/-- Witness for C1 at the concrete reachable input `⟨1, 5, 0⟩` with rating
`Good`. -/
theorem NextState_stability_positive_witness :
    ∃ st, NextState DefaultParams ⟨1, 5, 0⟩ Good 0 = some st ∧
      0 < st.Stability ∧ 0 ≤ st.Difficulty :=
  NextState_stability_positive ⟨1, 5, 0⟩ Good 0 (by norm_num)
    (fun _ => by norm_num) (Or.inr (Or.inr (Or.inl rfl)))

/-- Claim C2: for every input state (any real stability and difficulty) and
every rating among the four enumerated values, the difficulty returned by
`NextState` lies in [1, 10]; both the first-review branch and the
subsequent-review branch clamp. -/
theorem NextState_difficulty_in_bounds (c : CardState) (r : Rating) (now : ℤ)
    (hr : r = Again ∨ r = Hard ∨ r = Good ∨ r = Easy) :
    ∃ st, NextState DefaultParams c r now = some st ∧
      1 ≤ st.Difficulty ∧ st.Difficulty ≤ 10 := by
  obtain ⟨s, d, t⟩ := c
  by_cases h0 : s = 0
  · subst h0
    rcases hr with h | h | h | h <;> subst h
    · exact ⟨_, nextState_new_again d t now, by norm_num, by norm_num⟩
    · exact ⟨_, nextState_new_hard d t now, by norm_num, by norm_num⟩
    · exact ⟨_, nextState_new_good d t now, by norm_num, by norm_num⟩
    · exact ⟨_, nextState_new_easy d t now, by norm_num, by norm_num⟩
  · rcases hr with h | h | h | h <;> subst h
    · exact ⟨_, nextState_again_eq ⟨s, d, t⟩ now h0, one_le_clamp _, clamp_le_ten _⟩
    · exact ⟨_, nextState_hard_eq ⟨s, d, t⟩ now h0, one_le_clamp _, clamp_le_ten _⟩
    · exact ⟨_, nextState_good_eq ⟨s, d, t⟩ now h0, one_le_clamp _, clamp_le_ten _⟩
    · exact ⟨_, nextState_easy_eq ⟨s, d, t⟩ now h0, one_le_clamp _, clamp_le_ten _⟩

/-- Witness for C2 at the out-of-range difficulty 20 with rating `Easy`. -/
theorem NextState_difficulty_in_bounds_witness :
    ∃ st, NextState DefaultParams ⟨3, 20, 0⟩ Easy 0 = some st ∧
      1 ≤ st.Difficulty ∧ st.Difficulty ≤ 10 :=
  NextState_difficulty_in_bounds ⟨3, 20, 0⟩ Easy 0
    (Or.inr (Or.inr (Or.inr rfl)))

/-- Claim C3: for a previously reviewed state, rating `Again` yields
stability exactly `max(0.1, S * 0.01)` (the decay factor is the default
`W[7] = 0.01`), strictly below `S` whenever `S * 0.01 > 0.1`; and iterating
`NextState` with `Again` from any positive starting stability never drops
below the floor 0.1 and eventually equals it. -/
theorem NextState_again_collapse :
    sliceIdx DefaultParams.W 7 = some 0.01 ∧
    (∀ (c : CardState) (now : ℤ), c.Stability ≠ 0 →
      ∃ st, NextState DefaultParams c Again now = some st ∧
        st.Stability = max 0.1 (c.Stability * 0.01) ∧
        (0.1 < c.Stability * 0.01 → st.Stability < c.Stability)) ∧
    (∀ c : CardState, 0 < c.Stability →
      (∀ n : ℕ, 1 ≤ n →
        ∃ st, iterateAgain DefaultParams c n = some st ∧ 0.1 ≤ st.Stability) ∧
      ∃ N : ℕ, ∀ n : ℕ, N ≤ n →
        ∃ st, iterateAgain DefaultParams c n = some st ∧ st.Stability = 0.1) := by
  refine ⟨rfl, ?_, ?_⟩
  · intro c now h
    refine ⟨_, nextState_again_eq c now h, rfl, ?_⟩
    intro hgt
    show max (0.1 : ℝ) (c.Stability * 0.01) < c.Stability
    rw [max_eq_right (le_of_lt hgt)]
    nlinarith
  · intro c hc
    constructor
    · intro n hn
      obtain ⟨st, hit, _, _, hlo⟩ := iterateAgain_invariant c hc n
      exact ⟨st, hit, hlo hn⟩
    · exact iterateAgain_eventually c hc

/-- Witness for C3 at the concrete state `⟨20, 5, 0⟩`. -/
theorem NextState_again_collapse_witness :
    (∃ st, NextState DefaultParams ⟨20, 5, 0⟩ Again 0 = some st ∧
      st.Stability = max 0.1 ((20 : ℝ) * 0.01) ∧
      (0.1 < (20 : ℝ) * 0.01 → st.Stability < 20)) ∧
    ∃ N : ℕ, ∀ n : ℕ, N ≤ n →
      ∃ st, iterateAgain DefaultParams ⟨20, 5, 0⟩ n = some st ∧
        st.Stability = 0.1 :=
  ⟨NextState_again_collapse.2.1 ⟨20, 5, 0⟩ 0 (by norm_num),
   (NextState_again_collapse.2.2 ⟨20, 5, 0⟩ (by norm_num)).2⟩

/-- Claim C5: on a new card (stability 0, any difficulty, any last-review
time) each rating takes its initial stability from the rating-indexed entry
of the base-stability table `W[r-1]` (0.4, 0.6, 2.4, 5.8), independently of
the prior difficulty and timestamp, and the resulting difficulty strictly
decreases as the rating improves: 6.65 > 5.79 > 4.93 > 4.07 (no clamp
binds). -/
theorem NextState_new_card_initialization (d : ℝ) (t now : ℤ) :
    NextState DefaultParams ⟨0, d, t⟩ Again now = some ⟨0.4, 6.65, now⟩ ∧
    NextState DefaultParams ⟨0, d, t⟩ Hard now = some ⟨0.6, 5.79, now⟩ ∧
    NextState DefaultParams ⟨0, d, t⟩ Good now = some ⟨2.4, 4.93, now⟩ ∧
    NextState DefaultParams ⟨0, d, t⟩ Easy now = some ⟨5.8, 4.07, now⟩ ∧
    sliceIdx DefaultParams.W (Again - 1) = some 0.4 ∧
    sliceIdx DefaultParams.W (Hard - 1) = some 0.6 ∧
    sliceIdx DefaultParams.W (Good - 1) = some 2.4 ∧
    sliceIdx DefaultParams.W (Easy - 1) = some 5.8 ∧
    (6.65 : ℝ) > 5.79 ∧ (5.79 : ℝ) > 4.93 ∧ (4.93 : ℝ) > 4.07 :=
  ⟨nextState_new_again d t now, nextState_new_hard d t now,
   nextState_new_good d t now, nextState_new_easy d t now,
   rfl, rfl, rfl, rfl, by norm_num, by norm_num, by norm_num⟩

/-- Claim C8: with difficulty fixed in [1,10] and rating `Good`, the
relative stability growth `newStability/oldStability - 1` is strictly
decreasing in the old stability. -/
theorem NextState_diminishing_relative_growth (d s1 s2 : ℝ)
    (t1 t2 now1 now2 : ℤ) (hd1 : 1 ≤ d) (hd10 : d ≤ 10)
    (h1 : 0 < s1) (h12 : s1 < s2) :
    ∃ st1 st2,
      NextState DefaultParams ⟨s1, d, t1⟩ Good now1 = some st1 ∧
      NextState DefaultParams ⟨s2, d, t2⟩ Good now2 = some st2 ∧
      st2.Stability / s2 - 1 < st1.Stability / s1 - 1 := by
  have h2 : (0 : ℝ) < s2 := lt_trans h1 h12
  have hclamp : max (1 : ℝ) (min 10 d) = d := by
    rw [min_eq_right hd10, max_eq_right hd1]
  refine ⟨_, _, nextState_good_eq ⟨s1, d, t1⟩ now1 (ne_of_gt h1),
    nextState_good_eq ⟨s2, d, t2⟩ now2 (ne_of_gt h2), ?_⟩
  show s2 * (1 + growthFactor s2 (max 1 (min 10 d)) * retentionFactor * 1) / s2 - 1 <
    s1 * (1 + growthFactor s1 (max 1 (min 10 d)) * retentionFactor * 1) / s1 - 1
  rw [hclamp, mul_div_cancel_left₀ _ (ne_of_gt h2), mul_div_cancel_left₀ _ (ne_of_gt h1)]
  have key : s2 ^ (-(0.14 : ℝ)) < s1 ^ (-(0.14 : ℝ)) := by
    rw [Real.rpow_neg (le_of_lt h1), Real.rpow_neg (le_of_lt h2)]
    exact inv_strictAnti₀ (Real.rpow_pos_of_pos h1 _)
      (Real.rpow_lt_rpow (le_of_lt h1) h12 (by norm_num))
  have hanti : growthFactor s2 d < growthFactor s1 d := by
    unfold growthFactor
    exact mul_lt_mul_of_pos_left key (mul_pos (Real.exp_pos _) (by linarith))
  have h3 := mul_lt_mul_of_pos_right hanti retentionFactor_pos
  linarith

/-- Witness for C8 at difficulty 5 and stabilities 1 < 2. -/
theorem NextState_diminishing_relative_growth_witness :
    ∃ st1 st2,
      NextState DefaultParams ⟨1, 5, 0⟩ Good 0 = some st1 ∧
      NextState DefaultParams ⟨2, 5, 0⟩ Good 0 = some st2 ∧
      st2.Stability / 2 - 1 < st1.Stability / 1 - 1 :=
  NextState_diminishing_relative_growth 5 1 2 0 0 0 0 (by norm_num)
    (by norm_num) (by norm_num) (by norm_num)

/-- Claim C10 (implicit): for a previously reviewed state with positive
stability and difficulty in [1,10], every successful rating (`Hard`, `Good`,
`Easy`) strictly increases stability under the default parameters. -/
theorem NextState_success_strictly_increases_stability (c : CardState)
    (r : Rating) (now : ℤ) (hs : 0 < c.Stability)
    (hd1 : 1 ≤ c.Difficulty) (hd10 : c.Difficulty ≤ 10)
    (hr : r = Hard ∨ r = Good ∨ r = Easy) :
    ∃ st, NextState DefaultParams c r now = some st ∧
      c.Stability < st.Stability := by
  obtain ⟨s, d, t⟩ := c
  have h0 : s ≠ 0 := ne_of_gt hs
  rcases hr with h | h | h <;> subst h
  · exact ⟨_, nextState_hard_eq ⟨s, d, t⟩ now h0,
      succStability_gt s _ _ hs (clamp_le_ten _) (by norm_num)⟩
  · exact ⟨_, nextState_good_eq ⟨s, d, t⟩ now h0,
      succStability_gt s _ _ hs (clamp_le_ten _) (by norm_num)⟩
  · exact ⟨_, nextState_easy_eq ⟨s, d, t⟩ now h0,
      succStability_gt s _ _ hs (clamp_le_ten _) (by norm_num)⟩

/-- Witness for C10 at the spec's §8 concrete scenario `⟨10, 5⟩` with rating
`Good`. -/
theorem NextState_success_strictly_increases_stability_witness :
    ∃ st, NextState DefaultParams ⟨10, 5, 0⟩ Good 0 = some st ∧
      (10 : ℝ) < st.Stability :=
  NextState_success_strictly_increases_stability ⟨10, 5, 0⟩ Good 0
    (by norm_num) (by norm_num) (by norm_num) (Or.inr (Or.inl rfl))

/-! Out-of-range ratings. -/

lemma sliceIdx_none_iff (i : ℤ) :
    sliceIdx DefaultParams.W i = none ↔ i < 0 ∨ 11 ≤ i := by
  unfold sliceIdx
  by_cases h : 0 ≤ i
  · rw [if_pos h, List.getElem?_eq_none_iff,
      show (DefaultParams.W).length = 11 from rfl]
    omega
  · rw [if_neg h]
    constructor
    · intro _; left; omega
    · intro _; rfl

lemma nextState_subseq_ne_none (c : CardState) (r : Rating) (now : ℤ)
    (h0 : c.Stability ≠ 0) : NextState DefaultParams c r now ≠ none := by
  rw [NextState, if_neg h0]
  by_cases hA : r = Again
  · simp [hA, sliceIdx_W6, sliceIdx_W7, Option.bind]
  · by_cases hH : r = Hard
    · simp [hA, hH, Again, Hard, Good, Easy, calculateNewStability,
        sliceIdx_W6, sliceIdx_W8, sliceIdx_W9, sliceIdx_W10, Option.bind]
    · by_cases hE : r = Easy
      · simp [hA, hH, hE, Again, Hard, Good, Easy, calculateNewStability,
          sliceIdx_W6, sliceIdx_W8, sliceIdx_W9, sliceIdx_W10, Option.bind]
      · simp [hA, hH, hE, calculateNewStability, sliceIdx_W6, sliceIdx_W8,
          sliceIdx_W9, sliceIdx_W10, Option.bind]

/-- Counterexample for C9: `NextState` silently accepts the out-of-range
rating 5 on a new card and returns a normal result (initial stability is
read from `W[4] = 4.93`); it does not fail. -/
theorem NextState_rating_five_silently_accepted :
    NextState DefaultParams ⟨0, 0, 0⟩ 5 0 = some ⟨4.93, 3.21, 0⟩ := by
  unfold NextState
  rw [if_pos (show (CardState.mk 0 0 0).Stability = 0 from rfl)]
  norm_num [sliceIdx_W4, sliceIdx_W6, Option.bind, max_def, min_def]

/-- Claim C9 (amended): `NextState` performs no rating validation.  Under
the default parameters it fails (Go: index-out-of-range panic, modelled as
`none`) exactly for a new card whose rating lies outside `[1, 11]`; every
other input — including out-of-enumeration ratings such as 5, and any
rating whatsoever on the subsequent-review branch — is silently processed
into a normal result. -/
theorem NextState_none_iff (c : CardState) (r : ℤ) (now : ℤ) :
    NextState DefaultParams c r now = none ↔
      c.Stability = 0 ∧ (r ≤ 0 ∨ 12 ≤ r) := by
  by_cases h0 : c.Stability = 0
  · rw [NextState, if_pos h0]
    rcases hsl : sliceIdx DefaultParams.W (r - 1) with _ | w
    · have hr := (sliceIdx_none_iff (r - 1)).mp hsl
      exact iff_of_true rfl ⟨h0, by omega⟩
    · have hne : ¬(r - 1 < 0 ∨ 11 ≤ r - 1) := by
        intro hcontra
        rw [(sliceIdx_none_iff (r - 1)).mpr hcontra] at hsl
        exact Option.noConfusion hsl
      refine iff_of_false ?_ ?_
      · intro hcontra
        exact Option.noConfusion hcontra
      · intro hcontra
        exact absurd hcontra.2 (by omega)
  · exact iff_of_false (nextState_subseq_ne_none c r now h0)
      (fun h => h0 h.1)

/-! Due-date computation. -/

lemma int64wrap_eq_self (n : ℤ) (h1 : int64Min ≤ n) (h2 : n ≤ int64Max) :
    int64wrap n = n := by
  simp only [int64wrap, int64Min, int64Max] at *
  omega

lemma durationOfFloat_nonneg_eq (x : ℝ) (hx : 0 ≤ x) (hr : ⌊x⌋ ≤ int64Max) :
    durationOfFloat x = some ⌊x⌋ := by
  show (if int64Min ≤ (if 0 ≤ x then ⌊x⌋ else ⌈x⌉) ∧
      (if 0 ≤ x then ⌊x⌋ else ⌈x⌉) ≤ int64Max then
        some (if 0 ≤ x then ⌊x⌋ else ⌈x⌉) else none) = _
  rw [if_pos hx]
  exact if_pos ⟨le_trans (by norm_num [int64Min]) (Int.floor_nonneg.mpr hx), hr⟩

lemma nextDueDate_eq (s : ℝ) (now : ℤ) (hx : 0 ≤ s * 24)
    (hr : ⌊s * 24⌋ ≤ int64Max) :
    NextDueDate s now = some (now + int64wrap (⌊s * 24⌋ * nsPerHour)) := by
  show (durationOfFloat (s * 24)).map (fun d => now + int64wrap (d * nsPerHour)) = _
  rw [durationOfFloat_nonneg_eq (s * 24) hx hr]
  rfl

lemma nextDueDate_eq_of_le (s : ℝ) (now : ℤ) (hx : 0 ≤ s * 24)
    (hr : ⌊s * 24⌋ * nsPerHour ≤ int64Max) :
    NextDueDate s now = some (now + ⌊s * 24⌋ * nsPerHour) := by
  have hfl0 : (0 : ℤ) ≤ ⌊s * 24⌋ := Int.floor_nonneg.mpr hx
  have hfl : ⌊s * 24⌋ ≤ int64Max :=
    le_trans (le_mul_of_one_le_right hfl0 (by norm_num [nsPerHour])) hr
  rw [nextDueDate_eq s now hx hfl,
    int64wrap_eq_self (⌊s * 24⌋ * nsPerHour)
      (le_trans (by norm_num [int64Min])
        (mul_nonneg hfl0 (by norm_num [nsPerHour]))) hr]

lemma nextDueDate_100000 (now : ℤ) :
    NextDueDate 100000 now = some (now + 8640000000000000000) := by
  have hfl : ⌊(100000 * 24 : ℝ)⌋ = 2400000 := by
    rw [show (100000 * 24 : ℝ) = ((2400000 : ℤ) : ℝ) by norm_num, Int.floor_intCast]
  rw [nextDueDate_eq_of_le 100000 now (by norm_num)
    (by rw [hfl]; norm_num [nsPerHour, int64Max]), hfl]
  norm_num [nsPerHour]

lemma nextDueDate_200000 (now : ℤ) :
    NextDueDate 200000 now = some (now - 1166744073709551616) := by
  have hfl : ⌊(200000 * 24 : ℝ)⌋ = 4800000 := by
    rw [show (200000 * 24 : ℝ) = ((4800000 : ℤ) : ℝ) by norm_num, Int.floor_intCast]
  rw [nextDueDate_eq 200000 now (by norm_num) (by rw [hfl]; norm_num [int64Max]),
    hfl, show (4800000 : ℤ) * nsPerHour = 17280000000000000000 from by
      norm_num [nsPerHour],
    show int64wrap 17280000000000000000 = -1166744073709551616 from by
      norm_num [int64wrap]]
  congr 1

/-- Counterexample for C6: for stability 0.1 the spec's exact fractional due
time is `now + 2.4` hours, but `NextDueDate` returns `now + 2` whole hours
(the Go `float64 → time.Duration` conversion truncates before the
multiplication by `time.Hour`). -/
theorem NextDueDate_fractional_cex :
    NextDueDate 0.1 0 = some 7200000000000 ∧
    ((7200000000000 : ℤ) : ℝ) ≠ specNextDueDate 0.1 0 := by
  constructor
  · have hfl : ⌊(0.1 * 24 : ℝ)⌋ = 2 := by
      rw [Int.floor_eq_iff]
      norm_num
    rw [nextDueDate_eq_of_le 0.1 0 (by norm_num)
      (by rw [hfl]; norm_num [nsPerHour, int64Max]), hfl]
    norm_num [nsPerHour]
  · unfold specNextDueDate nsPerHour
    push_cast
    norm_num

/-- Claim C6 (amended): as long as the duration `trunc(s*24)` hours fits in
`int64` (stability below 106752 days), `NextDueDate s now` equals `now`
plus `s * 24` hours truncated down to a whole number of hours: it never
exceeds the exact fractional target `now + s*24h`, falls short of it by
strictly less than one hour, and agrees with it exactly whenever `s * 24`
is a whole number of hours.  Beyond that bound the `int64` duration
multiplication wraps: at stability 200000 days the due date is
`now - 1166744073709551616` ns (about 324095 hours before `now`). -/
theorem NextDueDate_whole_hours (s : ℝ) (now : ℤ) (hs : 0 ≤ s)
    (hrange : ⌊s * 24⌋ * nsPerHour ≤ int64Max) :
    (∃ z, NextDueDate s now = some z ∧
      ((z : ℤ) : ℝ) ≤ specNextDueDate s now ∧
      specNextDueDate s now - ((nsPerHour : ℤ) : ℝ) < ((z : ℤ) : ℝ) ∧
      (∀ h : ℤ, s * 24 = (h : ℝ) → ((z : ℤ) : ℝ) = specNextDueDate s now)) ∧
    NextDueDate 200000 now = some (now - 1166744073709551616) ∧
    now - 1166744073709551616 < now := by
  have hx : (0 : ℝ) ≤ s * 24 := mul_nonneg hs (by norm_num)
  have hfl1 : ((⌊s * 24⌋ : ℤ) : ℝ) ≤ s * 24 := Int.floor_le _
  have hfl2 : s * 24 < ⌊s * 24⌋ + 1 := Int.lt_floor_add_one _
  refine ⟨⟨now + ⌊s * 24⌋ * nsPerHour,
    nextDueDate_eq_of_le s now hx hrange, ?_, ?_, ?_⟩,
    nextDueDate_200000 now, by omega⟩
  · unfold specNextDueDate nsPerHour
    push_cast
    nlinarith
  · unfold specNextDueDate nsPerHour
    push_cast
    nlinarith
  · intro h hh
    have hfl : ⌊s * 24⌋ = h := by rw [hh, Int.floor_intCast]
    rw [hfl]
    unfold specNextDueDate nsPerHour
    push_cast
    linarith

/-- Witness for C6 (amended) at `s = 1/2`, `now = 0`. -/
theorem NextDueDate_whole_hours_witness :
    (∃ z, NextDueDate (1 / 2) 0 = some z ∧
      ((z : ℤ) : ℝ) ≤ specNextDueDate (1 / 2) 0 ∧
      specNextDueDate (1 / 2) 0 - ((nsPerHour : ℤ) : ℝ) < ((z : ℤ) : ℝ) ∧
      (∀ h : ℤ, (1 / 2 : ℝ) * 24 = (h : ℝ) →
        ((z : ℤ) : ℝ) = specNextDueDate (1 / 2) 0)) ∧
    NextDueDate 200000 0 = some (0 - 1166744073709551616) ∧
    (0 : ℤ) - 1166744073709551616 < 0 :=
  NextDueDate_whole_hours (1 / 2) 0 (by norm_num)
    (by rw [show ((1 / 2 : ℝ) * 24) = ((12 : ℤ) : ℝ) by norm_num,
        Int.floor_intCast]
        norm_num [nsPerHour, int64Max])

/-- Counterexample for C7: `NextDueDate` is not strictly increasing in the
stability — stabilities 0 and 1/48 (half an hour) both map to exactly
`now`, because the duration is truncated to whole hours. -/
theorem NextDueDate_not_strictly_monotone :
    (0 : ℝ) ≤ 0 ∧ (0 : ℝ) < 1 / 48 ∧
    NextDueDate 0 0 = some 0 ∧ NextDueDate (1 / 48) 0 = some 0 := by
  refine ⟨le_refl _, by norm_num, ?_, ?_⟩
  · have hfl : ⌊(0 * 24 : ℝ)⌋ = 0 := by
      rw [show (0 * 24 : ℝ) = ((0 : ℤ) : ℝ) by norm_num, Int.floor_intCast]
    rw [nextDueDate_eq_of_le 0 0 (by norm_num)
      (by rw [hfl]; norm_num [nsPerHour, int64Max]), hfl]
    norm_num
  · have hfl : ⌊(1 / 48 * 24 : ℝ)⌋ = 0 := by
      rw [Int.floor_eq_iff]
      norm_num
    rw [nextDueDate_eq_of_le (1 / 48) 0 (by norm_num)
      (by rw [hfl]; norm_num [nsPerHour, int64Max]), hfl]
    norm_num

/-- Claim C7 (amended): as long as the larger duration fits in `int64`
(stability below 106752 days), the due date is at least `now` and
`NextDueDate` is monotone (non-decreasing, not strictly increasing) in the
stability.  Both properties fail across the `int64` wrap: stability 100000
days gives `now + 8640000000000000000` ns but 200000 days wraps to
`now - 1166744073709551616` ns, before `now` and before the smaller
stability's due date. -/
theorem NextDueDate_monotone (now : ℤ) (s1 s2 : ℝ) (h0 : 0 ≤ s1)
    (h12 : s1 ≤ s2) (hrange : ⌊s2 * 24⌋ * nsPerHour ≤ int64Max) :
    (∃ z1 z2, NextDueDate s1 now = some z1 ∧ NextDueDate s2 now = some z2 ∧
      now ≤ z1 ∧ z1 ≤ z2) ∧
    (∃ w1 w2, NextDueDate 100000 now = some w1 ∧
      NextDueDate 200000 now = some w2 ∧ w2 < now ∧ w2 < w1) := by
  constructor
  · have hx1 : (0 : ℝ) ≤ s1 * 24 := mul_nonneg h0 (by norm_num)
    have hx2 : (0 : ℝ) ≤ s2 * 24 := mul_nonneg (le_trans h0 h12) (by norm_num)
    have hmono : ⌊s1 * 24⌋ ≤ ⌊s2 * 24⌋ := Int.floor_le_floor (by linarith)
    have hr1 : ⌊s1 * 24⌋ * nsPerHour ≤ int64Max :=
      le_trans (mul_le_mul_of_nonneg_right hmono
        (by norm_num [nsPerHour])) hrange
    refine ⟨_, _, nextDueDate_eq_of_le s1 now hx1 hr1,
      nextDueDate_eq_of_le s2 now hx2 hrange, ?_, ?_⟩
    · have := mul_nonneg (Int.floor_nonneg.mpr hx1)
        (show (0 : ℤ) ≤ nsPerHour by norm_num [nsPerHour])
      linarith
    · have := mul_le_mul_of_nonneg_right hmono
        (show (0 : ℤ) ≤ nsPerHour by norm_num [nsPerHour])
      linarith
  · exact ⟨_, _, nextDueDate_100000 now, nextDueDate_200000 now,
      by omega, by omega⟩

/-- Witness for C7 (amended) at `now = 5`, `s1 = 1`, `s2 = 2`. -/
theorem NextDueDate_monotone_witness :
    (∃ z1 z2, NextDueDate 1 5 = some z1 ∧ NextDueDate 2 5 = some z2 ∧
      (5 : ℤ) ≤ z1 ∧ z1 ≤ z2) ∧
    (∃ w1 w2, NextDueDate 100000 5 = some w1 ∧
      NextDueDate 200000 5 = some w2 ∧ w2 < 5 ∧ w2 < w1) :=
  NextDueDate_monotone 5 1 2 (by norm_num) (by norm_num)
    (by rw [show ((2 : ℝ) * 24) = ((48 : ℤ) : ℝ) by norm_num,
        Int.floor_intCast]
        norm_num [nsPerHour, int64Max])

/-! Growth-formula decomposition (claim C4). -/

/-- Counterexample for C4 as stated: with the current stability fixed at 1
and rating `Good`, the relative growth produced by `NextState` is an affine
function `E * (11 - d)` of the new difficulty `d`, and no function of the
form `c * d ^ (-k)` with `k > 0` (an "inverse power of the new difficulty",
up to the constant absorbing the other three factors) agrees with it on
`[1, 10]`: evaluation at `d = 1, 2, 4` is contradictory. -/
theorem growth_difficulty_not_inverse_power :
    ¬ ∃ c k : ℝ, 0 < k ∧ ∀ d : ℝ, 1 ≤ d → d ≤ 10 →
      ∀ st, NextState DefaultParams ⟨1, d, 0⟩ Good 0 = some st →
        st.Stability - 1 = c * d ^ (-k) := by
  rintro ⟨c, k, hk, h⟩
  have key : ∀ d : ℝ, 1 ≤ d → d ≤ 10 →
      Real.exp 1.49 * (11 - d) * retentionFactor = c * d ^ (-k) := by
    intro d h1 h10
    have hcl : max (1 : ℝ) (min 10 d) = d := by
      rw [min_eq_right h10, max_eq_right h1]
    have hst := h d h1 h10 _ (nextState_good_eq ⟨1, d, 0⟩ 0 (by norm_num))
    simp only [growthFactor, hcl, Real.one_rpow] at hst
    linear_combination hst
  have e1 := key 1 (by norm_num) (by norm_num)
  have e2 := key 2 (by norm_num) (by norm_num)
  have e4 := key 4 (by norm_num) (by norm_num)
  rw [Real.one_rpow] at e1
  have hx0 : (0 : ℝ) < (2 : ℝ) ^ (-k) := Real.rpow_pos_of_pos (by norm_num) _
  have h4 : (4 : ℝ) ^ (-k) = (2 : ℝ) ^ (-k) * (2 : ℝ) ^ (-k) := by
    rw [show (4 : ℝ) = 2 * 2 by norm_num,
      Real.mul_rpow (by norm_num) (by norm_num)]
  rw [h4] at e4
  have hA : (0 : ℝ) < Real.exp 1.49 * retentionFactor :=
    mul_pos (Real.exp_pos _) retentionFactor_pos
  have hc : c = 10 * (Real.exp 1.49 * retentionFactor) := by
    linear_combination -e1
  rw [hc] at e2 e4
  have h10A : (10 : ℝ) * (Real.exp 1.49 * retentionFactor) ≠ 0 :=
    ne_of_gt (by linarith)
  have hx910 : (2 : ℝ) ^ (-k) = 9 / 10 := by
    apply mul_left_cancel₀ h10A
    linear_combination -e2
  rw [hx910] at e4
  have hzero : Real.exp 1.49 * retentionFactor = 0 := by
    linear_combination (-10 / 11) * e4
  exact absurd hzero (ne_of_gt hA)

/-- Claim C4 (amended): for a previously reviewed state and a successful
rating, `NextState` under the default parameters returns
`stability * (1 + growth)` where `growth` is the product of the exponential
scaling term `exp(W[8])`, the factor `11 - newDifficulty` — linear and
strictly decreasing in the new difficulty (harder cards grow slower), not
an inverse power of it — the inverse power `stability ^ (-W[9])` of the
current stability, a retention-scaling factor derived from
`DesiredRetention`, and a per-rating multiplier that is `0.94 < 1` for
`Hard`, `1.3 > 1` for `Easy`, and `1` for `Good`. -/
theorem NextState_growth_decomposition (c : CardState) (r : Rating)
    (now : ℤ) (h0 : c.Stability ≠ 0) (hr : r = Hard ∨ r = Good ∨ r = Easy) :
    (∃ st, NextState DefaultParams c r now = some st ∧
      st.Stability = c.Stability *
        (1 + growthFactor c.Stability st.Difficulty * retentionFactor *
          hardPenalty r)) ∧
    hardPenalty Hard < 1 ∧ 1 < hardPenalty Easy ∧ hardPenalty Good = 1 ∧
    0 < retentionFactor ∧
    (∀ s d1 d2 : ℝ, 0 < s → d1 < d2 → growthFactor s d2 < growthFactor s d1) := by
  refine ⟨?_, by norm_num [hardPenalty, Hard, Easy], by norm_num [hardPenalty, Easy, Hard],
    by norm_num [hardPenalty, Good, Hard, Easy], retentionFactor_pos, ?_⟩
  · rcases hr with h | h | h <;> subst h
    · exact ⟨_, nextState_hard_eq c now h0, rfl⟩
    · exact ⟨_, nextState_good_eq c now h0, rfl⟩
    · exact ⟨_, nextState_easy_eq c now h0, rfl⟩
  · intro s d1 d2 hs hd
    unfold growthFactor
    exact mul_lt_mul_of_pos_right
      (mul_lt_mul_of_pos_left (by linarith) (Real.exp_pos _))
      (Real.rpow_pos_of_pos hs _)

/-- Witness for C4 (amended) at the state `⟨10, 5, 0⟩` with rating `Hard`. -/
theorem NextState_growth_decomposition_witness :
    (∃ st, NextState DefaultParams ⟨10, 5, 0⟩ Hard 0 = some st ∧
      st.Stability = (10 : ℝ) *
        (1 + growthFactor 10 st.Difficulty * retentionFactor *
          hardPenalty Hard)) ∧
    hardPenalty Hard < 1 ∧ 1 < hardPenalty Easy ∧ hardPenalty Good = 1 ∧
    0 < retentionFactor ∧
    (∀ s d1 d2 : ℝ, 0 < s → d1 < d2 → growthFactor s d2 < growthFactor s d1) :=
  NextState_growth_decomposition ⟨10, 5, 0⟩ Hard 0 (by norm_num)
    (Or.inl rfl)

end Knolhash
